import Mathlib

/-!
Shallow embedding of the spine-structure parser of minHumdrum
(`src/HumdrumFileBase.cpp`), together with proofs checking the
natural-language specification against it.

Lines of a Humdrum file are kept as raw strings; a token is addressed by a
pair `(lineIndex, fieldIndex)`.  The analysis pipeline
(`analyzeTokens` → `analyzeLines` → `analyzeSpines` → `analyzeLinks` →
`analyzeTracks`) is modelled stage by stage from `HumdrumFileBase::read`.
Functions of the classes `HumdrumLine` / `HumdrumToken`, whose sources are
not part of the excerpt, are modelled from the specification and carry a
doc comment saying so.
-/

namespace MinHumdrum

/-- Token reference: (line index, field index). -/
abbrev TokRef := Nat × Nat

/-- Boolean list equality test used by the char-level string helpers. -/
def listLeads : List Char → List Char → Bool
  | [], _ => true
  | _ :: _, [] => false
  | a :: as, b :: bs => a = b && listLeads as bs

/-- Modelled from the spec: token / line classification is done on the text;
`strLeads s pat` tells whether `s` starts with `pat` (C++ `substr(0,n) == pat`). -/
def strLeads (s pat : String) : Bool :=
  listLeads pat.data s.data

/-- Modelled from the spec (§4.1): the tokenizer produces the ordered fields of
one raw line by splitting on the tab delimiter (`createTokensFromLine` walks the
characters and starts a new token at each tab). -/
def splitTabs : List Char → List (List Char)
  | [] => [[]]
  | c :: rest =>
    if c = '\t' then [] :: splitTabs rest
    else
      match splitTabs rest with
      | [] => [[c]]
      | t :: ts => (c :: t) :: ts

/-- Modelled from the spec (§4.1): tokenize one raw line into its fields. -/
def tokenize (s : String) : List String :=
  (splitTabs s.data).map (fun cs => String.mk cs)

/-- Modelled from the spec (§4.1): exclusive interpretation tokens start with
the two characters `**` (cf. the `substr(0, 2) == "**"` test in
`HumdrumFileBase::adjustSpines`). -/
def isExclusiveTok (t : String) : Bool := strLeads t "**"

/-- Modelled from the spec (§4.1): the split manipulator is the token `*^`. -/
def isSplitTok (t : String) : Bool := t == "*^"

/-- Modelled from the spec (§4.1): the merge manipulator is the token `*v`. -/
def isMergeTok (t : String) : Bool := t == "*v"

/-- Modelled from the spec (§4.1): the exchange manipulator is the token `*x`. -/
def isExchangeTok (t : String) : Bool := t == "*x"

/-- Modelled from the spec (§4.1): the add manipulator is the token `*+`. -/
def isAddTok (t : String) : Bool := t == "*+"

/-- Modelled from the spec (§4.1): the terminate manipulator is the token `*-`. -/
def isTerminateTok (t : String) : Bool := t == "*-"

/-- Modelled from the spec: a token is a spine manipulator when it is one of
split, merge, exchange, add, terminate or an exclusive interpretation (the
source of `getPrimaryTrackSeq` shows terminators and exclusives count as
manipulators). -/
def isManipulatorTok (t : String) : Bool :=
  isSplitTok t || isMergeTok t || isExchangeTok t || isAddTok t ||
    isTerminateTok t || isExclusiveTok t

/-- Modelled from the spec (§4.1): the null data placeholder token. -/
def isNullTok (t : String) : Bool := t == "."

/-- Modelled from the spec (§4.2): a line participates in the spine structure
unless it is blank or a global comment / reference record (starting `!!`). -/
def hasSpines (s : String) : Bool :=
  !(s == "" || strLeads s "!!")

/-- Modelled from the spec (§4.2): a line is an interpretation line when its
text starts with `*` (pure function of the first token's text). -/
def lineIsInterpretation (s : String) : Bool := strLeads s "*"

/-- Modelled from the spec (§4.2): a line is an exclusive-interpretation line
when its text starts with `**`. -/
def lineIsExclusive (s : String) : Bool := strLeads s "**"

/-- Modelled from the spec (§4.3): a line is a manipulator line when some token
on it is a spine manipulator. -/
def lineIsManipulator (toks : List String) : Bool :=
  toks.any isManipulatorTok

/-- Track table state of `HumdrumFileBase`: `trackstarts` (index 0 reserved,
`none` models a NULL pointer), `trackends`, plus the ghost field `assignOrder`
recording, in discovery order, each track number the parser writes into a
spine-info label (at file start and at every add manipulator). -/
structure TrackSt where
  trackstarts : List (Option TokRef)
  trackends : List (List TokRef)
  assignOrder : List Nat
deriving Repr, DecidableEq

/-- Track state created by the `HumdrumFileBase` constructor
(`addToTrackStarts(NULL)`): the reserved slot 0. -/
def trackSt0 : TrackSt := ⟨[none], [[]], []⟩

/-- Embedding of `HumdrumFileBase::addToTrackStarts`: a NULL argument opens a
fresh slot; a token fills a pending NULL slot when one exists (and the list has
more than the reserved entry), otherwise it is pushed as a new track. -/
def addToTrackStarts (tr : TrackSt) (tok : Option TokRef) : TrackSt :=
  match tok with
  | none =>
    { tr with trackstarts := tr.trackstarts ++ [none],
              trackends := tr.trackends ++ [[]] }
  | some t =>
    if tr.trackstarts.length > 1 && tr.trackstarts.getLast? == some none then
      { tr with trackstarts := tr.trackstarts.dropLast ++ [some t] }
    else
      { tr with trackstarts := tr.trackstarts ++ [some t],
                trackends := tr.trackends ++ [[]] }

/-- C++ `std::string::substr(pos, len)` where `len` is an `int` converted to
`size_t`: a negative length wraps around and takes the whole remainder.  An
out-of-range `pos` (which throws in C++ and is unreachable in the analysed
paths) is modelled as clamping. -/
def substrCpp (s : String) (pos : Nat) (len : Int) : String :=
  if len < 0 then String.mk (s.data.drop pos)
  else String.mk ((s.data.drop pos).take len.toNat)

/-- Embedding of `HumdrumFileBase::getMergedSpineInfo`.  For `extra = 1` the
two labels collapse (first label stripped of its first and last two
characters) whenever they have equal length and agree on all but the last
character; otherwise they are concatenated.  For other `extra` the source loop
appends `extra` copies of `info[starti+1+extra]` (sic). -/
def getMergedSpineInfo (info : List String) (starti : Nat) (extra : Nat) : String :=
  if extra = 1 then
    let s1 := info.getD starti ""
    let s2 := info.getD (starti + 1) ""
    let len1 := s1.length
    let len2 := s2.length
    if len1 == len2 &&
        substrCpp s1 0 ((len1 : Int) - 1) == substrCpp s2 0 ((len2 : Int) - 1) then
      substrCpp s1 1 ((len1 : Int) - 3)
    else
      s1 ++ " " ++ s2
  else
    (List.range extra).foldl
      (fun out _ => out ++ " " ++ info.getD (starti + 1 + extra) "")
      (info.getD starti "")

/-- Natural-number rendering used in error messages and spine labels
(C++ `to_string` / stream insertion). -/
def natStr (n : Nat) : String := Nat.repr n

/-- Error text of `analyzeSpines` for data found before the first exclusive
interpretation (line numbers are 1-based in messages). -/
def errDataBefore (i : Nat) (raw : String) : String :=
  "Error on line: " ++ natStr (i + 1) ++ ":\n" ++
    "   Data found before exclusive interpretation\n" ++ "   LINE: " ++ raw

/-- Error text of `analyzeSpines` for a field-count mismatch against the
current spine width. -/
def errWidth (i : Nat) (expected found : Nat) : String :=
  "Error on line " ++ natStr (i + 1) ++ ":\n" ++ "   Expected " ++
    natStr expected ++ " fields, but found " ++ natStr found ++ "\n"

/-- Error text ERROR1 of the exchange branch of `adjustSpines` (dead code in
the source: the guard re-tests token `i`, not token `i+1`). -/
def errExch1 : String := "ERROR1 in *x calculation"

/-- Error text ERROR2 of the exchange branch of `adjustSpines` (exchange token
in the last column). -/
def errExch2 (i count : Nat) : String :=
  "ERROR2 in *x calculation\n" ++ "Index " ++ natStr i ++
    " larger than allowed: " ++ natStr (count - 1) ++ "\n"

/-- Error text of `adjustSpines` for an exclusive interpretation with no
pending add-manipulator slot (this message uses the 0-based line index). -/
def errExclNoPrep (lineIdx i : Nat) (raw : String) : String :=
  "Error: Exclusive interpretation with no preparation on line " ++
    natStr lineIdx ++ " spine index " ++ natStr i ++ "\n" ++
    "Line: " ++ raw ++ "\n"

/-- Error text of `stitchLinesTogether` for two non-interpretation lines of
different length. -/
def errNotSameLength (pIdx nIdx : Nat) (praw nraw : String) : String :=
  "Error lines " ++ natStr (pIdx + 1) ++ " and " ++ natStr (nIdx + 1) ++
    " not same length\n" ++ "Line " ++ natStr (pIdx + 1) ++ ": " ++ praw ++
    "\n" ++ "Line " ++ natStr (nIdx + 1) ++ ": " ++ nraw

/-- Error text of the add branch of `stitchLinesTogether` when the token after
the continuation is not an exclusive interpretation (the source prints
`next.token(i)` with the previous-line loop index `i`, kept as is). -/
def errAddExcl (nIdx i : Nat) (tok : String) : String :=
  "Error: expecting exclusive interpretation on line " ++ natStr (nIdx + 1) ++
    " at token " ++ natStr i ++ " but got " ++ tok ++ "\n"

/-- Error text of the final alignment check of `stitchLinesTogether`. -/
def errAlign (pIdx nIdx : Nat) (praw nraw : String) (i pc ii nc : Nat) : String :=
  "Error: cannot stitch lines together due to alignment problem\n" ++
    "Line " ++ natStr (pIdx + 1) ++ ": " ++ praw ++ "\n" ++
    "Line " ++ natStr (nIdx + 1) ++ ": " ++ nraw ++ "\n" ++
    "I = " ++ natStr i ++ " token count " ++ natStr pc ++ "\n" ++
    "II = " ++ natStr ii ++ " token count " ++ natStr nc ++ "\n"

/-- Error text for the unreachable final branch of the stitching walk. -/
def errShouldNot : String := "Error: should not get here"

/-- Embedding of the token loop of `HumdrumFileBase::adjustSpines`.  The index
`i` walks the manipulator line's tokens; `newtype`/`newinfo` accumulate the
next line's datatype and spine-info labels; `tr` is the track table.  The
result is `(error?, newtype, newinfo, tracktable)`.  The recursion is driven
by a fuel argument (always called with enough fuel, since `i` grows by at
least one per step); running out of fuel is unreachable and returns the
unreachable-branch error. -/
def adjustLoopF (fuel : Nat) (lineIdx : Nat) (raw : String) (toks : List String)
    (datatype sinfo : List String) (i : Nat) (newtype newinfo : List String)
    (tr : TrackSt) : Option String × List String × List String × TrackSt :=
  match fuel with
  | 0 => (some errShouldNot, newtype, newinfo, tr)
  | fuel + 1 =>
    if i < toks.length then
      let t := toks.getD i ""
      if isSplitTok t then
        adjustLoopF fuel lineIdx raw toks datatype sinfo (i + 1)
          (newtype ++ [datatype.getD i "", datatype.getD i ""])
          (newinfo ++ ["(" ++ sinfo.getD i "" ++ ")a",
                       "(" ++ sinfo.getD i "" ++ ")b"]) tr
      else if isMergeTok t then
        let mergecount := ((toks.drop (i + 1)).takeWhile isMergeTok).length
        adjustLoopF fuel lineIdx raw toks datatype sinfo (i + mergecount + 1)
          (newtype ++ [datatype.getD i ""])
          (newinfo ++ [getMergedSpineInfo sinfo i mergecount]) tr
      else if isAddTok t then
        let tr1 := addToTrackStarts tr none
        let newTrack := tr1.trackstarts.length - 1
        adjustLoopF fuel lineIdx raw toks datatype sinfo (i + 1)
          (newtype ++ [datatype.getD i "", ""])
          (newinfo ++ [sinfo.getD i "", natStr newTrack])
          { tr1 with assignOrder := tr1.assignOrder ++ [newTrack] }
      else if isExchangeTok t then
        if i < toks.length - 1 then
          -- the source re-tests token i here (not token i+1): ERROR1 is dead
          if isExchangeTok t then
            adjustLoopF fuel lineIdx raw toks datatype sinfo (i + 2)
              (newtype ++ [datatype.getD (i + 1) "", datatype.getD i ""])
              (newinfo ++ [sinfo.getD (i + 1) "", sinfo.getD i ""]) tr
          else (some errExch1, newtype, newinfo, tr)
        else (some (errExch2 i toks.length), newtype, newinfo, tr)
      else if isTerminateTok t then
        let k := tr.trackstarts.length - 1
        adjustLoopF fuel lineIdx raw toks datatype sinfo (i + 1) newtype newinfo
          { tr with trackends :=
              tr.trackends.set k ((tr.trackends.getD k []) ++ [(lineIdx, i)]) }
      else if isExclusiveTok t then
        let newtype1 := newtype ++ [t]
        let newinfo1 := newinfo ++ [sinfo.getD i ""]
        if tr.trackstarts.length > 1 && tr.trackstarts.getLast? == some none then
          adjustLoopF fuel lineIdx raw toks datatype sinfo (i + 1) newtype1
            newinfo1 (addToTrackStarts tr (some (lineIdx, i)))
        else (some (errExclNoPrep lineIdx i raw), newtype1, newinfo1, tr)
      else
        adjustLoopF fuel lineIdx raw toks datatype sinfo (i + 1)
          (newtype ++ [datatype.getD i ""]) (newinfo ++ [sinfo.getD i ""]) tr
    else (none, newtype, newinfo, tr)

/-- Embedding of `HumdrumFileBase::adjustSpines`: rewrite the datatype and
spine-info arrays according to the manipulators on `toks`. -/
def adjustSpines (lineIdx : Nat) (raw : String) (toks : List String)
    (datatype sinfo : List String) (tr : TrackSt) :
    Option String × List String × List String × TrackSt :=
  adjustLoopF (toks.length + 1) lineIdx raw toks datatype sinfo 0 [] [] tr

/-- Track-table initialisation for the first exclusive-interpretation line of
the file (`analyzeSpines` init branch): token `j` opens track `j + 1`. -/
def initTracksFrom (lineIdx j : Nat) (toks : List String) (tr : TrackSt) : TrackSt :=
  match toks with
  | [] => tr
  | _ :: rest =>
    let tr1 := addToTrackStarts tr (some (lineIdx, j))
    initTracksFrom lineIdx (j + 1) rest
      { tr1 with assignOrder := tr1.assignOrder ++ [j + 1] }

/-- Result of the `analyzeSpines` scan: one record per processed line (`none`
for lines without spine structure, otherwise the (spine-info, datatype)
labels in force at that line), the error if one stopped the scan, and the
final track table. -/
structure SpRes where
  recs : List (Option (List String × List String))
  err : Option String
  tr : TrackSt
deriving Repr, DecidableEq

/-- Embedding of the line loop of `HumdrumFileBase::analyzeSpines`: walk the
lines tracking the current datatype / spine-info arrays, calling
`adjustSpines` at manipulator lines. -/
def spLoop (idx : Nat) (ls : List String) (init : Bool)
    (datatype sinfo : List String) (tr : TrackSt) : SpRes :=
  match ls with
  | [] => ⟨[], none, tr⟩
  | l :: rest =>
    let toks := tokenize l
    if hasSpines l = false then
      let r := spLoop (idx + 1) rest init datatype sinfo tr
      ⟨none :: r.recs, r.err, r.tr⟩
    else if init = false then
      if lineIsExclusive l then
        let datatype1 := toks
        let sinfo1 := (List.range toks.length).map (fun j => natStr (j + 1))
        let tr1 := initTracksFrom idx 0 toks tr
        let r := spLoop (idx + 1) rest true datatype1 sinfo1 tr1
        ⟨some (sinfo1, datatype1) :: r.recs, r.err, r.tr⟩
      else ⟨[], some (errDataBefore idx l), tr⟩
    else if datatype.length ≠ toks.length then
      ⟨[], some (errWidth idx datatype.length toks.length), tr⟩
    else if lineIsManipulator toks = false then
      let r := spLoop (idx + 1) rest init datatype sinfo tr
      ⟨some (sinfo, datatype) :: r.recs, r.err, r.tr⟩
    else
      match adjustSpines idx l toks datatype sinfo tr with
      | (none, datatype1, sinfo1, tr1) =>
        let r := spLoop (idx + 1) rest init datatype1 sinfo1 tr1
        ⟨some (sinfo, datatype) :: r.recs, r.err, r.tr⟩
      | (some e, _, _, tr1) => ⟨[some (sinfo, datatype)], some e, tr1⟩

/-- Embedding of the manipulator walk of `HumdrumFileBase::stitchLinesTogether`
(the branch taken when one of the two lines is an interpretation line).  `i`
and `ii` are the cursors into the previous and next lines; the result carries
the created links (previous field, next field) and the final cursor values.
Fuel-driven for the same reason as `adjustLoopF`. -/
def stitchWalkF (fuel : Nat) (nIdx : Nat) (ptoks ntoks : List String)
    (i ii : Nat) : Except String (List (Nat × Nat) × Nat × Nat) :=
  match fuel with
  | 0 => .error errShouldNot
  | fuel + 1 =>
    if i < ptoks.length then
      let t := ptoks.getD i ""
      if isManipulatorTok t = false then
        (stitchWalkF fuel nIdx ptoks ntoks (i + 1) (ii + 1)).map
          (fun r => ((i, ii) :: r.1, r.2))
      else if isSplitTok t then
        (stitchWalkF fuel nIdx ptoks ntoks (i + 1) (ii + 2)).map
          (fun r => ((i, ii) :: (i, ii + 1) :: r.1, r.2))
      else if isMergeTok t then
        let runLen := 1 + ((ptoks.drop (i + 1)).takeWhile isMergeTok).length
        (stitchWalkF fuel nIdx ptoks ntoks (i + runLen) (ii + 1)).map
          (fun r => (((List.range runLen).map (fun k => (i + k, ii))) ++ r.1, r.2))
      else if isExchangeTok t then
        -- the source guard is `(i < count) && token(i+1).isExchange...`; the
        -- first conjunct holds here, and token(i+1) is read even when i+1 is
        -- out of range (undefined behaviour in C++, modelled by getD)
        if isExchangeTok (ptoks.getD (i + 1) "") then
          (stitchWalkF fuel nIdx ptoks ntoks (i + 2) (ii + 2)).map
            (fun r => ((i + 1, ii) :: (i, ii + 1) :: r.1, r.2))
        else
          stitchWalkF fuel nIdx ptoks ntoks (i + 2) ii
      else if isTerminateTok t then
        stitchWalkF fuel nIdx ptoks ntoks (i + 1) ii
      else if isAddTok t then
        if isExclusiveTok (ntoks.getD (ii + 1) "") = false then
          .error (errAddExcl nIdx i (ntoks.getD i ""))
        else
          (stitchWalkF fuel nIdx ptoks ntoks (i + 1) (ii + 2)).map
            (fun r => ((i, ii) :: r.1, r.2))
      else if isExclusiveTok t then
        (stitchWalkF fuel nIdx ptoks ntoks (i + 1) (ii + 1)).map
          (fun r => ((i, ii) :: r.1, r.2))
      else .error errShouldNot
    else .ok ([], i, ii)

/-- Embedding of `HumdrumFileBase::stitchLinesTogether`: forward/backward
links between two consecutive structural lines.  A link `(p, n)` means field
`p` of the previous line gains a forward link to field `n` of the next line
(and field `n` the matching backward link). -/
def stitchLinesTogether (pIdx nIdx : Nat) (praw nraw : String)
    (ptoks ntoks : List String) : Except String (List (Nat × Nat)) :=
  if !(lineIsInterpretation praw) && !(lineIsInterpretation nraw) then
    if ptoks.length ≠ ntoks.length then
      .error (errNotSameLength pIdx nIdx praw nraw)
    else .ok ((List.range ptoks.length).map (fun k => (k, k)))
  else
    match stitchWalkF (ptoks.length + 2) nIdx ptoks ntoks 0 0 with
    | .error e => .error e
    | .ok (links, i, ii) =>
      if i ≠ ptoks.length || ii ≠ ntoks.length then
        .error (errAlign pIdx nIdx praw nraw i ptoks.length ii ntoks.length)
      else .ok links

/-- Index the elements of a list starting at `n`. -/
def withIdx (n : Nat) : List α → List (Nat × α)
  | [] => []
  | a :: l => (n, a) :: withIdx (n + 1) l

/-- Embedding of the line loop of `HumdrumFileBase::analyzeLinks`: stitch each
pair of consecutive structural lines, skipping lines without spines.  Returns
(error?, stitch table); `((p, n), links)` records the links made between lines
`p` and `n`. -/
def linksLoop (items : List (Nat × String)) (prev : Option (Nat × String)) :
    Option String × List ((Nat × Nat) × List (Nat × Nat)) :=
  match items with
  | [] => (none, [])
  | (k, l) :: rest =>
    if hasSpines l = false then linksLoop rest prev
    else
      match prev with
      | none => linksLoop rest (some (k, l))
      | some (p, pl) =>
        match stitchLinesTogether p k pl l (tokenize pl) (tokenize l) with
        | .error e => (some e, [])
        | .ok links =>
          let r := linksLoop rest (some (k, l))
          (r.1, ((p, k), links) :: r.2)

/-- Modelled from the spec: the track number a token carries is the leading
number of its spine-path label (read back by the later `analyzeTracks` stage
as the first run of digits). -/
def firstDigitRun : List Char → List Char
  | [] => []
  | c :: rest =>
    if c.isDigit then c :: rest.takeWhile Char.isDigit
    else firstDigitRun rest

/-- Modelled from the spec: numeric value of a digit string. -/
def digitsVal (cs : List Char) : Nat :=
  cs.foldl (fun acc c => acc * 10 + (c.toNat - 48)) 0

/-- Modelled from the spec: track number encoded in a spine-info label. -/
def trackFromSpineInfo (s : String) : Nat :=
  digitsVal (firstDigitRun s.data)

/-- State of a parsed `HumdrumFileBase`: raw lines, tokenized lines, the
line-index assignment, the stored parse error, the per-line spine records,
the track table, the stitch table, and the per-line track numbers. -/
structure HFile where
  raw : List String
  toks : List (List String)
  lineIndices : List Nat
  parseError : String
  recs : List (Option (List String × List String))
  tr : TrackSt
  stitches : List ((Nat × Nat) × List (Nat × Nat))
  lineTracks : List (List Nat)
deriving Repr, DecidableEq

/-- File state as constructed before analysis (constructor plus the line
reading loop of `read`). -/
def initFile (raw : List String) : HFile :=
  ⟨raw, [], [], "", [], trackSt0, [], []⟩

/-- Embedding of `HumdrumFileBase::analyzeTokens`: tokenize every line. -/
def analyzeTokens (h : HFile) : HFile :=
  { h with toks := h.raw.map tokenize }

/-- Embedding of `HumdrumFileBase::analyzeLines`: store each line's index. -/
def analyzeLines (h : HFile) : HFile :=
  { h with lineIndices := List.range h.raw.length }

/-- Embedding of `HumdrumFileBase::analyzeSpines` (the tracker reset plus the
line scan). -/
def analyzeSpines (h : HFile) : HFile :=
  let r := spLoop 0 h.raw false [] [] trackSt0
  match r.err with
  | none => { h with recs := r.recs, tr := r.tr }
  | some e => { h with recs := r.recs, tr := r.tr, parseError := e }

/-- Embedding of `HumdrumFileBase::analyzeLinks`. -/
def analyzeLinks (h : HFile) : HFile :=
  let r := linksLoop (withIdx 0 h.raw) none
  match r.1 with
  | none => { h with stitches := r.2 }
  | some e => { h with stitches := r.2, parseError := e }

/-- Embedding of `HumdrumFileBase::analyzeTracks`.  Modelled from the spec:
the stage only reads the track number out of each token's spine-info label
(global lines use the reserved track 0); it reports no errors. -/
def analyzeTracks (h : HFile) : HFile :=
  { h with lineTracks :=
      h.recs.map (fun r =>
        match r with
        | none => [0]
        | some (si, _) => si.map trackFromSpineInfo) }

/-- Embedding of `HumdrumFileBase::isValid`: the last parse succeeded exactly
when no error message is stored. -/
def isValid (h : HFile) : Bool := h.parseError == ""

/-- Embedding of `HumdrumFileBase::getParseError`-style retrieval: the stored
diagnostic message. -/
def getParseError (h : HFile) : String := h.parseError

/-- Embedding of `HumdrumFileBase::read` (stream variant): run the fixed
pipeline, halting after the first stage that leaves the parse invalid. -/
def read (raw : List String) : HFile :=
  let h1 := analyzeTokens (initFile raw)
  if isValid h1 = false then h1 else
  let h2 := analyzeLines h1
  if isValid h2 = false then h2 else
  let h3 := analyzeSpines h2
  if isValid h3 = false then h3 else
  let h4 := analyzeLinks h3
  if isValid h4 = false then h4 else
  analyzeTracks h4

/-- Embedding of `HumdrumFileBase::operator[]`: resolve a (possibly negative)
line index.  The source computes `lines.size() - index` for a negative index,
then clamps any out-of-range result to the last line (after printing a
warning, not modelled).  Returns the resolved position into `raw`. -/
def fileIdxOp (h : HFile) (index : Int) : Nat :=
  let idx : Int := if index < 0 then (h.raw.length : Int) - index else index
  if idx < 0 || (h.raw.length : Int) ≤ idx then h.raw.length - 1
  else idx.toNat

/-- Embedding of the line-index handling of `HumdrumFileBase::token`: a
negative line index has the line count added to it (no range clamp; the
subsequent vector access is in range whenever the result is). -/
def tokenAccessLine (h : HFile) (lineindex : Int) : Int :=
  if lineindex < 0 then lineindex + (h.raw.length : Int) else lineindex

/-- Embedding of `HumdrumFileBase::getMaxTrack`. -/
def getMaxTrack (h : HFile) : Int := (h.tr.trackstarts.length : Int) - 1

/-- Embedding of `HumdrumFileBase::getTrackStart`: NULL (`none`) for any track
number out of range, otherwise the stored start entry (itself possibly NULL). -/
def getTrackStart (h : HFile) (track : Int) : Option TokRef :=
  if 0 < track && track < (h.tr.trackstarts.length : Int) then
    (h.tr.trackstarts.getD track.toNat none)
  else none

/-- Embedding of `HumdrumFileBase::getTrackEndCount`: negative track numbers
are offset from the end; out-of-range gives 0. -/
def getTrackEndCount (h : HFile) (track : Int) : Nat :=
  let track := if track < 0 then track + (h.tr.trackends.length : Int) else track
  if track < 0 then 0
  else if (h.tr.trackends.length : Int) ≤ track then 0
  else (h.tr.trackends.getD track.toNat []).length

/-- Embedding of `HumdrumFileBase::getTrackEnd`: negative track and subtrack
numbers are offset from the end; out-of-range gives NULL. -/
def getTrackEnd (h : HFile) (track subtrack : Int) : Option TokRef :=
  let track := if track < 0 then track + (h.tr.trackends.length : Int) else track
  if track < 0 then none
  else if (h.tr.trackends.length : Int) ≤ track then none
  else
    let ends := h.tr.trackends.getD track.toNat []
    let subtrack := if subtrack < 0 then subtrack + (ends.length : Int) else subtrack
    if subtrack < 0 then none
    else if (ends.length : Int) ≤ subtrack then none
    else ends.getD subtrack.toNat (0, 0) |> some

/-- Text of the token at a given reference. -/
def tokTextAt (h : HFile) (t : TokRef) : String :=
  (h.toks.getD t.1 []).getD t.2 ""

/-- Track number assigned to a token by the `analyzeTracks` stage. -/
def tokenTrack (h : HFile) (t : TokRef) : Nat :=
  (h.lineTracks.getD t.1 []).getD t.2 0

/-- Boolean substring test used to state properties of error messages. -/
def containsSub (s pat : String) : Bool :=
  (List.range (s.data.length + 1)).any (fun k => listLeads pat.data (s.data.drop k))

/-- Option bit of `getPrimaryTrackSeq`: exclude null tokens. -/
def optNoNulls : Nat := 1

/-- Option bit of `getPrimaryTrackSeq`: exclude manipulators. -/
def optNoManip : Nat := 2

/-- Option bit of `getPrimaryTrackSeq`: include global lines. -/
def optNoGlobal : Nat := 4

/-- Forward links of a token, read from the stitch table (the model of
`HumdrumToken::getNextToken`). -/
def getNextTokens (h : HFile) (t : TokRef) : List TokRef :=
  match h.stitches.find? (fun e => e.1.1 == t.1) with
  | none => []
  | some ((_, nl), links) =>
    (links.filter (fun l => l.1 == t.2)).map (fun l => (nl, l.2))

/-- First tokens of the global (non-spined) lines with index in `[a, b)`,
as pushed by the global-line loops of `getPrimaryTrackSeq`. -/
def globalLinesIn (h : HFile) (a b : Nat) : List TokRef :=
  ((List.range (b - a)).map (fun k => a + k)).filterMap
    (fun i => if hasSpines (h.raw.getD i "") then none else some ((i, 0) : TokRef))

/-- Walk of `HumdrumFileBase::getPrimaryTrackSeq` along a track's primary
spine (fuel-driven model of the `while (current != NULL)` loop). -/
def ptsLoop (h : HFile) (nullQ manipQ globalQ : Bool) (fuel : Nat)
    (cur : TokRef) (output : List TokRef) : List TokRef :=
  match fuel with
  | 0 => output
  | fuel + 1 =>
    let t := tokTextAt h cur
    let output :=
      if !nullQ && isNullTok t then output
      else if !manipQ && isManipulatorTok t && !(isTerminateTok t) &&
          !(isExclusiveTok t) then output
      else
        let output :=
          if output.length > 0 && globalQ then
            output ++ globalLinesIn h (output.getLastD (0, 0)).1 cur.1
          else output
        output ++ [cur]
    match getNextTokens h cur with
    | [] => output
    | nxt :: _ => ptsLoop h nullQ manipQ globalQ fuel nxt output

/-- Embedding of `HumdrumFileBase::getPrimaryTrackSeq`: the primary-spine
token sequence of a track, with option bits to keep null tokens, keep
manipulators, and interleave global lines. -/
def getPrimaryTrackSeq (h : HFile) (track : Int) (options : Nat) : List TokRef :=
  let nullQ := options.land optNoNulls != 0
  let manipQ := options.land optNoManip != 0
  let globalQ := options.land optNoGlobal != 0
  match getTrackStart h track with
  | none => []
  | some start =>
    let pre := if globalQ then globalLinesIn h 0 start.1 else []
    let out := ptsLoop h nullQ manipQ globalQ (h.raw.length + 1) start pre
    if globalQ then
      out ++ globalLinesIn h (out.getLastD (0, 0)).1 h.raw.length
    else out

/-! Invariants of the track table, used for the track-monotonicity claim. -/

/-- Invariant of the track table: the ghost record of assigned track numbers
is exactly `1, 2, …, maxTrack` in discovery order, and the start/end tables
stay in sync. -/
def TrackInv (tr : TrackSt) : Prop :=
  tr.assignOrder = List.range' 1 (tr.trackstarts.length - 1) ∧
  tr.trackends.length = tr.trackstarts.length ∧
  1 ≤ tr.trackstarts.length

theorem trackInv_trackSt0 : TrackInv trackSt0 := by
  refine ⟨?_, rfl, ?_⟩ <;> simp [trackSt0]

/-- The add-manipulator branch: opening a fresh NULL slot and recording the
new maximal track number preserves the invariant. -/
theorem trackInv_addNone (tr : TrackSt) (h : TrackInv tr) :
    TrackInv (let tr1 := addToTrackStarts tr none
              { tr1 with assignOrder :=
                  tr1.assignOrder ++ [tr1.trackstarts.length - 1] }) := by
  obtain ⟨h1, h2, h3⟩ := h
  simp only [addToTrackStarts]
  refine ⟨?_, ?_, ?_⟩
  · simp only [List.length_append, List.length_cons, List.length_nil, h1]
    have hL : tr.trackstarts.length + 1 - 1 = (tr.trackstarts.length - 1) + 1 := by
      omega
    rw [hL, List.range'_1_concat]
    have hc : 1 + (tr.trackstarts.length - 1) = (tr.trackstarts.length - 1) + 1 := by
      omega
    rw [hc]
  · simp [h2]
  · simp

/-- The terminate branch: appending a token to an end list preserves the
invariant. -/
theorem trackInv_setEnds (tr : TrackSt) (k : Nat) (e : List TokRef)
    (h : TrackInv tr) :
    TrackInv { tr with trackends := tr.trackends.set k e } := by
  obtain ⟨h1, h2, h3⟩ := h
  exact ⟨h1, by simp [h2], h3⟩

/-- The exclusive-interpretation branch: filling the pending NULL slot
preserves the invariant. -/
theorem trackInv_fill (tr : TrackSt) (t : TokRef)
    (hc : (tr.trackstarts.length > 1 &&
        tr.trackstarts.getLast? == some none) = true)
    (h : TrackInv tr) :
    TrackInv (addToTrackStarts tr (some t)) := by
  obtain ⟨h1, h2, h3⟩ := h
  simp only [addToTrackStarts, hc, if_true]
  have hlen : (tr.trackstarts.dropLast ++ [some t]).length =
      tr.trackstarts.length := by
    simp [List.length_dropLast]
    omega
  exact ⟨by rw [hlen]; exact h1, by rw [hlen]; exact h2, by rw [hlen]; exact h3⟩

/-- The token loop of `adjustSpines` preserves the track-table invariant
(also on its error returns, which carry the partially updated table). -/
theorem adjustLoopF_inv (fuel : Nat) :
    ∀ (lineIdx : Nat) (raw : String) (toks datatype sinfo : List String)
      (i : Nat) (nt ni : List String) (tr : TrackSt), TrackInv tr →
      TrackInv (adjustLoopF fuel lineIdx raw toks datatype sinfo i nt ni tr).2.2.2 := by
  induction fuel with
  | zero => intro _ _ _ _ _ _ _ _ tr h; exact h
  | succ n ih =>
    intro lineIdx raw toks datatype sinfo i nt ni tr h
    simp only [adjustLoopF]
    split
    case isTrue hi =>
      split
      case isTrue => exact ih _ _ _ _ _ _ _ _ _ h
      case isFalse =>
        split
        case isTrue => exact ih _ _ _ _ _ _ _ _ _ h
        case isFalse =>
          split
          case isTrue => exact ih _ _ _ _ _ _ _ _ _ (trackInv_addNone tr h)
          case isFalse =>
            split
            case isTrue =>
              split
              case isTrue => exact ih _ _ _ _ _ _ _ _ _ h
              case isFalse => exact h
            case isFalse =>
              split
              case isTrue => exact ih _ _ _ _ _ _ _ _ _ (trackInv_setEnds tr _ _ h)
              case isFalse =>
                split
                case isTrue =>
                  split
                  case isTrue hc => exact ih _ _ _ _ _ _ _ _ _ (trackInv_fill tr _ hc h)
                  case isFalse => exact h
                case isFalse => exact ih _ _ _ _ _ _ _ _ _ h
    case isFalse => exact h

/-- Track-table initialisation from the first exclusive line: starting from a
state holding tracks `1, …, j` (with a non-NULL last entry once `j > 0`),
assigning the remaining tokens yields an invariant-satisfying table. -/
theorem initTracksFrom_inv (toks : List String) :
    ∀ (lineIdx j : Nat) (tr : TrackSt),
      tr.trackstarts.length = j + 1 →
      tr.trackends.length = j + 1 →
      tr.assignOrder = List.range' 1 j →
      (j = 0 → tr.trackstarts = [none]) →
      (j ≠ 0 → tr.trackstarts.getLast? ≠ some none) →
      TrackInv (initTracksFrom lineIdx j toks tr) := by
  induction toks with
  | nil =>
    intro lineIdx j tr h1 h2 h3 _ _
    simp only [initTracksFrom]
    refine ⟨?_, ?_, ?_⟩
    · rw [h3, h1]
      simp
    · rw [h2, h1]
    · omega
  | cons t rest ih =>
    intro lineIdx j tr h1 h2 h3 h4 h5
    simp only [initTracksFrom]
    have hpush : addToTrackStarts tr (some (lineIdx, j)) =
        { tr with trackstarts := tr.trackstarts ++ [some (lineIdx, j)],
                  trackends := tr.trackends ++ [[]] } := by
      simp only [addToTrackStarts]
      rw [if_neg]
      intro hcond
      rw [Bool.and_eq_true] at hcond
      rcases Nat.eq_zero_or_pos j with hj | hj
      · have := h4 hj
        rw [this] at hcond
        simp at hcond
      · have := h5 (by omega)
        apply this
        have := hcond.2
        simpa using this
    rw [hpush]
    apply ih
    · simp [h1]
    · simp [h2]
    · simp only [h3]
      rw [List.range'_1_concat]
      have hc : 1 + j = j + 1 := by omega
      rw [hc]
    · intro hc; omega
    · intro _
      simp [List.getLast?_append]

/-- The line scan of `analyzeSpines` preserves the track-table invariant. -/
theorem spLoop_inv (ls : List String) :
    ∀ (idx : Nat) (init : Bool) (datatype sinfo : List String) (tr : TrackSt),
      TrackInv tr → (init = false → tr = trackSt0) →
      TrackInv (spLoop idx ls init datatype sinfo tr).tr := by
  induction ls with
  | nil => intro _ _ _ _ tr h _; exact h
  | cons l rest ih =>
    intro idx init datatype sinfo tr h h0
    simp only [spLoop]
    split
    case isTrue => exact ih _ _ _ _ _ h h0
    case isFalse =>
      split
      case isTrue hinit =>
        split
        case isTrue =>
          apply ih
          · rw [h0 hinit]
            apply initTracksFrom_inv <;> simp [trackSt0]
          · intro hc; exact absurd hc (by simp)
        case isFalse => exact h
      case isFalse hinit =>
        split
        case isTrue => exact h
        case isFalse =>
          split
          case isTrue => exact ih _ _ _ _ _ h h0
          case isFalse =>
            split
            case h_1 heq =>
              apply ih
              · have hinv := adjustLoopF_inv ((tokenize l).length + 1) idx l
                  (tokenize l) datatype sinfo 0 [] [] tr h
                rw [show adjustSpines idx l (tokenize l) datatype sinfo tr =
                    adjustLoopF ((tokenize l).length + 1) idx l (tokenize l)
                      datatype sinfo 0 [] [] tr from rfl] at heq
                rw [heq] at hinv
                exact hinv
              · intro hc
                exact absurd hc hinit
            case h_2 heq =>
              have hinv := adjustLoopF_inv ((tokenize l).length + 1) idx l
                (tokenize l) datatype sinfo 0 [] [] tr h
              rw [show adjustSpines idx l (tokenize l) datatype sinfo tr =
                  adjustLoopF ((tokenize l).length + 1) idx l (tokenize l)
                    datatype sinfo 0 [] [] tr from rfl] at heq
              rw [heq] at hinv
              exact hinv

/-- The track table of a parse is the one computed by the `analyzeSpines`
scan (the later stages do not modify it). -/
theorem read_tr (raw : List String) :
    (read raw).tr = (spLoop 0 raw false [] [] trackSt0).tr := by
  have h1 : isValid (analyzeTokens (initFile raw)) = true := rfl
  have h2 : isValid (analyzeLines (analyzeTokens (initFile raw))) = true := rfl
  have htr3 : (analyzeSpines (analyzeLines (analyzeTokens (initFile raw)))).tr =
      (spLoop 0 raw false [] [] trackSt0).tr := by
    simp only [analyzeSpines, analyzeLines, analyzeTokens, initFile]
    split <;> rfl
  have htr4 : ∀ g : HFile, (analyzeLinks g).tr = g.tr := by
    intro g
    simp only [analyzeLinks]
    split <;> rfl
  have htr5 : ∀ g : HFile, (analyzeTracks g).tr = g.tr := fun _ => rfl
  simp only [read, h1, h2]
  simp only [Bool.true_eq_false, if_false]
  split
  · exact htr3
  · split
    · rw [htr4]
      exact htr3
    · rw [htr5, htr4]
      exact htr3

/-- Appending on the right preserves nonemptiness of the character data. -/
theorem strAppend_data_ne (s t : String) (h : s.data ≠ []) : (s ++ t).data ≠ [] := by
  have hd : (s ++ t).data = s.data ++ t.data := by
    cases s
    cases t
    rfl
  rw [hd]
  intro hc
  rw [List.append_eq_nil] at hc
  exact h hc.1

/-- A string with nonempty character data is not the empty string. -/
theorem str_ne_of_data (s : String) (h : s.data ≠ []) : s ≠ "" := by
  intro hc
  rw [hc] at h
  exact h rfl

/-- Every error message produced by the spine scan is nonempty, so storing it
makes the parse invalid (`setParseError` returns false exactly then). -/
theorem adjustLoopF_err (fuel : Nat) :
    ∀ (lineIdx : Nat) (raw : String) (toks datatype sinfo : List String)
      (i : Nat) (nt ni : List String) (tr : TrackSt) (e : String),
      (adjustLoopF fuel lineIdx raw toks datatype sinfo i nt ni tr).1 = some e →
      e ≠ "" := by
  induction fuel with
  | zero =>
    intro _ _ _ _ _ _ _ _ _ e he
    simp only [adjustLoopF] at he
    cases he
    decide
  | succ n ih =>
    intro lineIdx raw toks datatype sinfo i nt ni tr e he
    simp only [adjustLoopF] at he
    split at he
    case isTrue =>
      split at he
      case isTrue => exact ih _ _ _ _ _ _ _ _ _ _ he
      case isFalse =>
        split at he
        case isTrue => exact ih _ _ _ _ _ _ _ _ _ _ he
        case isFalse =>
          split at he
          case isTrue => exact ih _ _ _ _ _ _ _ _ _ _ he
          case isFalse =>
            split at he
            case isTrue =>
              split at he
              case isTrue => exact ih _ _ _ _ _ _ _ _ _ _ he
              case isFalse =>
                cases he
                apply str_ne_of_data
                repeat apply strAppend_data_ne
                decide
            case isFalse =>
              split at he
              case isTrue => exact ih _ _ _ _ _ _ _ _ _ _ he
              case isFalse =>
                split at he
                case isTrue =>
                  split at he
                  case isTrue => exact ih _ _ _ _ _ _ _ _ _ _ he
                  case isFalse =>
                    cases he
                    apply str_ne_of_data
                    repeat apply strAppend_data_ne
                    decide
                case isFalse => exact ih _ _ _ _ _ _ _ _ _ _ he
    case isFalse => cases he

/-- Error messages recorded by the `analyzeSpines` line scan are nonempty. -/
theorem spLoop_err (ls : List String) :
    ∀ (idx : Nat) (init : Bool) (datatype sinfo : List String) (tr : TrackSt)
      (e : String),
      (spLoop idx ls init datatype sinfo tr).err = some e → e ≠ "" := by
  induction ls with
  | nil => intro _ _ _ _ _ e he; cases he
  | cons l rest ih =>
    intro idx init datatype sinfo tr e he
    simp only [spLoop] at he
    split at he
    case isTrue => exact ih _ _ _ _ _ _ he
    case isFalse =>
      split at he
      case isTrue =>
        split at he
        case isTrue => exact ih _ _ _ _ _ _ he
        case isFalse =>
          cases he
          apply str_ne_of_data
          repeat apply strAppend_data_ne
          decide
      case isFalse =>
        split at he
        case isTrue =>
          cases he
          apply str_ne_of_data
          repeat apply strAppend_data_ne
          decide
        case isFalse =>
          split at he
          case isTrue => exact ih _ _ _ _ _ _ he
          case isFalse =>
            split at he
            case h_1 => exact ih _ _ _ _ _ _ he
            case h_2 heq =>
              cases he
              have h1 : (adjustLoopF ((tokenize l).length + 1) idx l (tokenize l)
                  datatype sinfo 0 [] [] tr).1 = some e := by
                rw [show adjustLoopF ((tokenize l).length + 1) idx l (tokenize l)
                    datatype sinfo 0 [] [] tr =
                    adjustSpines idx l (tokenize l) datatype sinfo tr from rfl,
                  heq]
              exact adjustLoopF_err _ _ _ _ _ _ _ _ _ _ _ h1

/-- A nonempty error from the spine scan makes the whole parse invalid. -/
theorem read_invalid_of_spLoop_err (raw : List String) (e : String)
    (he : (spLoop 0 raw false [] [] trackSt0).err = some e) (hne : e ≠ "") :
    isValid (read raw) = false := by
  have h1 : isValid (analyzeTokens (initFile raw)) = true := rfl
  have h2 : isValid (analyzeLines (analyzeTokens (initFile raw))) = true := rfl
  have h3 : analyzeSpines (analyzeLines (analyzeTokens (initFile raw))) =
      { analyzeLines (analyzeTokens (initFile raw)) with
        recs := (spLoop 0 raw false [] [] trackSt0).recs,
        tr := (spLoop 0 raw false [] [] trackSt0).tr,
        parseError := e } := by
    simp only [analyzeSpines]
    have hraw : (analyzeLines (analyzeTokens (initFile raw))).raw = raw := rfl
    rw [hraw, he]
  have hv3 : isValid (analyzeSpines (analyzeLines (analyzeTokens (initFile raw))))
      = false := by
    rw [h3]
    simp only [isValid]
    exact beq_eq_false_iff_ne.mpr hne
  simp only [read, h1, h2]
  simp only [Bool.true_eq_false, if_false]
  rw [hv3]
  simp only [if_true]
  exact hv3

/-- Scanning only global lines leaves the tracked width unchanged, so the
next structural line must still match it: if it does not, the scan errors. -/
theorem sp7_mid (mid : List String) :
    ∀ (idx : Nat) (datatype sinfo : List String) (tr : TrackSt)
      (b : String) (post : List String),
      (∀ m ∈ mid, hasSpines m = false) → hasSpines b = true →
      datatype.length ≠ (tokenize b).length →
      (spLoop idx (mid ++ b :: post) true datatype sinfo tr).err ≠ none := by
  induction mid with
  | nil =>
    intro idx datatype sinfo tr b post _ hb hlen
    simp only [List.nil_append, spLoop, hb]
    simp [hlen]
  | cons m mid' ih =>
    intro idx datatype sinfo tr b post hmid hb hlen
    have hm : hasSpines m = false := hmid m (by simp)
    simp only [List.cons_append, spLoop, hm]
    simp only [Bool.true_eq_false, Bool.false_eq_true, eq_self_iff_true, if_true, if_false]
    exact ih _ _ _ _ _ _ (fun x hx => hmid x (by simp [hx])) hb hlen

/-- A file containing two adjacent structural lines, the first of them
without manipulators, whose field counts differ, always fails the spine
scan. -/
theorem sp7_main (pre : List String) :
    ∀ (idx : Nat) (init : Bool) (datatype sinfo : List String) (tr : TrackSt)
      (a : String) (mid : List String) (b : String) (post : List String),
      hasSpines a = true → hasSpines b = true →
      (∀ m ∈ mid, hasSpines m = false) →
      lineIsManipulator (tokenize a) = false →
      (tokenize a).length ≠ (tokenize b).length →
      (spLoop idx (pre ++ a :: (mid ++ b :: post)) init datatype sinfo tr).err
        ≠ none := by
  induction pre with
  | nil =>
    intro idx init datatype sinfo tr a mid b post ha hb hmid hman hlen
    simp only [List.nil_append, spLoop, ha]
    cases init with
    | false =>
      simp only [Bool.true_eq_false, Bool.false_eq_true, eq_self_iff_true, if_true, if_false]
      by_cases hex : lineIsExclusive a
      · rw [if_pos hex]
        exact sp7_mid _ _ _ _ _ _ _ hmid hb (by simpa using hlen)
      · rw [if_neg hex]
        simp
    | true =>
      simp only [Bool.true_eq_false, Bool.false_eq_true, eq_self_iff_true, if_true, if_false]
      by_cases hw : datatype.length ≠ (tokenize a).length
      · rw [if_pos hw]
        simp
      · rw [if_neg hw, if_pos hman]
        push_neg at hw
        exact sp7_mid _ _ _ _ _ _ _ hmid hb (by rw [hw]; exact hlen)
  | cons p pre' ih =>
    intro idx init datatype sinfo tr a mid b post ha hb hmid hman hlen
    simp only [List.cons_append, spLoop]
    split
    case isTrue => exact ih _ _ _ _ _ _ _ _ _ ha hb hmid hman hlen
    case isFalse =>
      split
      case isTrue =>
        split
        case isTrue => exact ih _ _ _ _ _ _ _ _ _ ha hb hmid hman hlen
        case isFalse => simp
      case isFalse =>
        split
        case isTrue => simp
        case isFalse =>
          split
          case isTrue => exact ih _ _ _ _ _ _ _ _ _ ha hb hmid hman hlen
          case isFalse =>
            split
            case h_1 => exact ih _ _ _ _ _ _ _ _ _ ha hb hmid hman hlen
            case h_2 => simp

/-- Error messages of the stitching walk are nonempty. -/
theorem stitchWalkF_err (fuel : Nat) :
    ∀ (nIdx : Nat) (ptoks ntoks : List String) (i ii : Nat) (e : String),
      stitchWalkF fuel nIdx ptoks ntoks i ii = .error e → e ≠ "" := by
  induction fuel with
  | zero =>
    intro _ _ _ _ _ e he
    simp only [stitchWalkF] at he
    cases he
    decide
  | succ n ih =>
    intro nIdx ptoks ntoks i ii e he
    simp only [stitchWalkF] at he
    split at he
    case isFalse => cases he
    case isTrue =>
      split at he
      case isTrue =>
        cases hr : stitchWalkF n nIdx ptoks ntoks (i + 1) (ii + 1) with
        | error e2 =>
          rw [hr] at he
          cases he
          exact ih _ _ _ _ _ _ hr
        | ok v => rw [hr] at he; cases he
      case isFalse =>
        split at he
        case isTrue =>
          cases hr : stitchWalkF n nIdx ptoks ntoks (i + 1) (ii + 2) with
          | error e2 => rw [hr] at he; cases he; exact ih _ _ _ _ _ _ hr
          | ok v => rw [hr] at he; cases he
        case isFalse =>
          split at he
          case isTrue =>
            cases hr : stitchWalkF n nIdx ptoks ntoks
                (i + (1 + ((ptoks.drop (i + 1)).takeWhile isMergeTok).length))
                (ii + 1) with
            | error e2 => rw [hr] at he; cases he; exact ih _ _ _ _ _ _ hr
            | ok v => rw [hr] at he; cases he
          case isFalse =>
            split at he
            case isTrue =>
              split at he
              case isTrue =>
                cases hr : stitchWalkF n nIdx ptoks ntoks (i + 2) (ii + 2) with
                | error e2 => rw [hr] at he; cases he; exact ih _ _ _ _ _ _ hr
                | ok v => rw [hr] at he; cases he
              case isFalse => exact ih _ _ _ _ _ _ he
            case isFalse =>
              split at he
              case isTrue => exact ih _ _ _ _ _ _ he
              case isFalse =>
                split at he
                case isTrue =>
                  split at he
                  case isTrue =>
                    cases he
                    apply str_ne_of_data
                    repeat apply strAppend_data_ne
                    decide
                  case isFalse =>
                    cases hr : stitchWalkF n nIdx ptoks ntoks (i + 1) (ii + 2) with
                    | error e2 => rw [hr] at he; cases he; exact ih _ _ _ _ _ _ hr
                    | ok v => rw [hr] at he; cases he
                case isFalse =>
                  split at he
                  case isTrue =>
                    cases hr : stitchWalkF n nIdx ptoks ntoks (i + 1) (ii + 1) with
                    | error e2 => rw [hr] at he; cases he; exact ih _ _ _ _ _ _ hr
                    | ok v => rw [hr] at he; cases he
                  case isFalse =>
                    cases he
                    decide

set_option maxHeartbeats 1000000 in
/-- Error messages of `stitchLinesTogether` are nonempty. -/
theorem stitchLines_err (pIdx nIdx : Nat) (praw nraw : String)
    (ptoks ntoks : List String) (e : String)
    (he : stitchLinesTogether pIdx nIdx praw nraw ptoks ntoks = .error e) :
    e ≠ "" := by
  simp only [stitchLinesTogether] at he
  split at he
  case isTrue =>
    split at he
    case isTrue =>
      cases he
      apply str_ne_of_data
      repeat apply strAppend_data_ne
      decide
    case isFalse => cases he
  case isFalse =>
    cases hw : stitchWalkF (ptoks.length + 2) nIdx ptoks ntoks 0 0 with
    | error e2 =>
      rw [hw] at he
      cases he
      exact stitchWalkF_err _ _ _ _ _ _ _ hw
    | ok v =>
      obtain ⟨links, i2, ii2⟩ := v
      rw [hw] at he
      simp only [] at he
      split at he
      case isTrue =>
        cases he
        apply str_ne_of_data
        repeat apply strAppend_data_ne
        decide
      case isFalse => cases he

/-- Error messages of the link-analysis loop are nonempty. -/
theorem linksLoop_err (items : List (Nat × String)) :
    ∀ (prev : Option (Nat × String)) (e : String),
      (linksLoop items prev).1 = some e → e ≠ "" := by
  induction items with
  | nil => intro _ e he; cases he
  | cons it rest ih =>
    intro prev e he
    rw [show it = (it.1, it.2) from rfl] at he
    simp only [linksLoop] at he
    split at he
    case isTrue => exact ih _ _ he
    case isFalse =>
      split at he
      case h_1 => exact ih _ _ he
      case h_2 =>
        split at he
        case h_1 hr => cases he; exact stitchLines_err _ _ _ _ _ _ _ hr
        case h_2 => exact ih _ _ he

/-- A valid parse means both the spine scan and the link scan succeeded, and
the parse result carries their records and stitch table unchanged. -/
theorem read_when_valid (raw : List String) (hv : isValid (read raw) = true) :
    (spLoop 0 raw false [] [] trackSt0).err = none ∧
    (linksLoop (withIdx 0 raw) none).1 = none ∧
    (read raw).recs = (spLoop 0 raw false [] [] trackSt0).recs ∧
    (read raw).stitches = (linksLoop (withIdx 0 raw) none).2 := by
  have h1 : isValid (analyzeTokens (initFile raw)) = true := rfl
  have h2 : isValid (analyzeLines (analyzeTokens (initFile raw))) = true := rfl
  cases he : (spLoop 0 raw false [] [] trackSt0).err with
  | some e =>
    rw [read_invalid_of_spLoop_err raw e he (spLoop_err _ _ _ _ _ _ _ he)] at hv
    cases hv
  | none =>
    have h3eq : analyzeSpines (analyzeLines (analyzeTokens (initFile raw))) =
        { analyzeLines (analyzeTokens (initFile raw)) with
          recs := (spLoop 0 raw false [] [] trackSt0).recs,
          tr := (spLoop 0 raw false [] [] trackSt0).tr } := by
      simp only [analyzeSpines]
      rw [show (analyzeLines (analyzeTokens (initFile raw))).raw = raw from rfl,
        he]
    have hv3 : isValid (analyzeSpines (analyzeLines (analyzeTokens
        (initFile raw)))) = true := by
      rw [h3eq]
      rfl
    have hraw3 : (analyzeSpines (analyzeLines (analyzeTokens
        (initFile raw)))).raw = raw := by
      rw [h3eq]
      rfl
    cases hl : (linksLoop (withIdx 0 raw) none).1 with
    | some e =>
      have h4eq : analyzeLinks (analyzeSpines (analyzeLines (analyzeTokens
          (initFile raw)))) =
          { analyzeSpines (analyzeLines (analyzeTokens (initFile raw))) with
            stitches := (linksLoop (withIdx 0 raw) none).2,
            parseError := e } := by
        simp only [analyzeLinks]
        rw [hraw3, hl]
      have hv4 : isValid (analyzeLinks (analyzeSpines (analyzeLines
          (analyzeTokens (initFile raw))))) = false := by
        rw [h4eq]
        simp only [isValid]
        exact beq_eq_false_iff_ne.mpr (linksLoop_err _ _ _ hl)
      have hrd : read raw = analyzeLinks (analyzeSpines (analyzeLines
          (analyzeTokens (initFile raw)))) := by
        simp only [read, h1, h2]
        simp only [Bool.true_eq_false, if_false]
        rw [hv3]
        simp only [Bool.true_eq_false, if_false, hv4, if_true]
      rw [hrd] at hv
      rw [hv4] at hv
      cases hv
    | none =>
      have h4eq : analyzeLinks (analyzeSpines (analyzeLines (analyzeTokens
          (initFile raw)))) =
          { analyzeSpines (analyzeLines (analyzeTokens (initFile raw))) with
            stitches := (linksLoop (withIdx 0 raw) none).2 } := by
        simp only [analyzeLinks]
        rw [hraw3, hl]
      have hv4 : isValid (analyzeLinks (analyzeSpines (analyzeLines
          (analyzeTokens (initFile raw))))) = true := by
        rw [h4eq]
        rw [show isValid { analyzeSpines (analyzeLines (analyzeTokens
          (initFile raw))) with
            stitches := (linksLoop (withIdx 0 raw) none).2 } =
          isValid (analyzeSpines (analyzeLines (analyzeTokens (initFile raw))))
          from rfl]
        exact hv3
      have hrd : read raw = analyzeTracks (analyzeLinks (analyzeSpines
          (analyzeLines (analyzeTokens (initFile raw))))) := by
        simp only [read, h1, h2]
        simp only [Bool.true_eq_false, if_false]
        rw [hv3, hv4]
        simp only [Bool.true_eq_false, if_false]
      refine ⟨rfl, rfl, ?_, ?_⟩
      · rw [hrd]
        rw [show (analyzeTracks (analyzeLinks (analyzeSpines (analyzeLines
          (analyzeTokens (initFile raw)))))).recs =
          (analyzeLinks (analyzeSpines (analyzeLines (analyzeTokens
            (initFile raw))))).recs from rfl]
        rw [h4eq, h3eq]
      · rw [hrd]
        rw [show (analyzeTracks (analyzeLinks (analyzeSpines (analyzeLines
          (analyzeTokens (initFile raw)))))).stitches =
          (analyzeLinks (analyzeSpines (analyzeLines (analyzeTokens
            (initFile raw))))).stitches from rfl]
        rw [h4eq]

/-- On the success path, skipping global lines leaves the tracked labels
unchanged: the next structural line matches the tracked width and records the
current labels. -/
theorem sp3_mid (mid : List String) :
    ∀ (idx : Nat) (datatype sinfo : List String) (tr : TrackSt)
      (b : String) (post : List String),
      (∀ m ∈ mid, hasSpines m = false) → hasSpines b = true →
      (spLoop idx (mid ++ b :: post) true datatype sinfo tr).err = none →
      (tokenize b).length = datatype.length ∧
      (spLoop idx (mid ++ b :: post) true datatype sinfo tr).recs[mid.length]? =
        some (some (sinfo, datatype)) := by
  induction mid with
  | nil =>
    intro idx datatype sinfo tr b post _ hb hok
    simp only [List.nil_append, List.length_nil, spLoop, hb, Bool.true_eq_false,
      Bool.false_eq_true, eq_self_iff_true, if_true, if_false] at hok ⊢
    by_cases hw : datatype.length ≠ (tokenize b).length
    · rw [if_pos hw] at hok
      exact Option.noConfusion hok
    · push_neg at hw
      rw [if_neg (by omega)] at hok ⊢
      refine ⟨hw.symm, ?_⟩
      by_cases hm : lineIsManipulator (tokenize b) = false
      · rw [if_pos hm]
        exact List.getElem?_cons_zero
      · rw [if_neg hm] at hok ⊢
        rcases hadj : adjustSpines idx b (tokenize b) datatype sinfo tr with
          ⟨o, d1, s1, tr1⟩
        rw [hadj] at hok
        cases o with
        | none =>
          show (some (sinfo, datatype) ::
            (spLoop (idx + 1) post true d1 s1 tr1).recs)[0]? =
            some (some (sinfo, datatype))
          exact List.getElem?_cons_zero
        | some e => exact Option.noConfusion hok
  | cons m mid' ih =>
    intro idx datatype sinfo tr b post hmid hb hok
    have hm : hasSpines m = false := hmid m (by simp)
    simp only [List.cons_append, spLoop, hm, eq_self_iff_true, if_true,
      List.length_cons] at hok ⊢
    rw [List.getElem?_cons_succ]
    exact ih _ _ _ _ _ _ (fun x hx => hmid x (by simp [hx])) hb hok

/-- Evaluation of `adjustSpines` on a lone split manipulator in a
single-column state: the column becomes two, both inheriting the datatype,
with spine-path labels `(s)a` and `(s)b`. -/
theorem adjustSpines_split (idx : Nat) (d s : String) (tr : TrackSt) :
    adjustSpines idx "*^" ["*^"] [d] [s] tr =
      (none, [d, d], ["(" ++ s ++ ")a", "(" ++ s ++ ")b"], tr) := rfl

/-- On the success path, a structural line `*^` recorded with single-column
labels `([s], [d])` is followed by a two-column structural line recorded with
labels `(["(s)a", "(s)b"], [d, d])`. -/
theorem sp3_main (pre : List String) :
    ∀ (idx : Nat) (init : Bool) (datatype sinfo : List String) (tr : TrackSt)
      (s d : String) (mid : List String) (b : String) (post : List String),
      (∀ m ∈ mid, hasSpines m = false) → hasSpines b = true →
      (spLoop idx (pre ++ "*^" :: (mid ++ b :: post)) init datatype sinfo
        tr).err = none →
      (spLoop idx (pre ++ "*^" :: (mid ++ b :: post)) init datatype sinfo
        tr).recs[pre.length]? = some (some ([s], [d])) →
      (tokenize b).length = 2 ∧
      (spLoop idx (pre ++ "*^" :: (mid ++ b :: post)) init datatype sinfo
          tr).recs[pre.length + mid.length + 1]? =
        some (some (["(" ++ s ++ ")a", "(" ++ s ++ ")b"], [d, d])) := by
  induction pre with
  | nil =>
    intro idx init datatype sinfo tr s d mid b post hmid hb hok hrec
    simp only [List.nil_append, List.length_nil] at hok hrec ⊢
    simp only [spLoop, show hasSpines "*^" = true from rfl, Bool.true_eq_false,
      Bool.false_eq_true, eq_self_iff_true, if_true, if_false,
      show tokenize "*^" = ["*^"] from rfl] at hok hrec ⊢
    cases init with
    | false =>
      simp only [eq_self_iff_true, if_true,
        show lineIsExclusive "*^" = false from rfl, Bool.false_eq_true,
        if_false] at hok
      exact Option.noConfusion hok
    | true =>
      simp only [Bool.true_eq_false, if_false] at hok hrec ⊢
      by_cases hw : datatype.length ≠ (["*^"] : List String).length
      · rw [if_pos hw] at hok
        exact Option.noConfusion hok
      · rw [if_neg hw] at hok hrec ⊢
        simp only [show lineIsManipulator ["*^"] = true from rfl,
          Bool.true_eq_false, if_false] at hok hrec ⊢
        rcases hadj : adjustSpines idx "*^" ["*^"] datatype sinfo tr with
          ⟨o, d1, s1, tr1⟩
        rw [hadj] at hok hrec
        cases o with
        | some e => exact Option.noConfusion hok
        | none =>
          have hok2 : (spLoop (idx + 1) (mid ++ b :: post) true d1 s1
              tr1).err = none := hok
          have hrec2 : (some (sinfo, datatype) :: (spLoop (idx + 1)
              (mid ++ b :: post) true d1 s1 tr1).recs)[0]? =
              some (some ([s], [d])) := hrec
          rw [List.getElem?_cons_zero] at hrec2
          simp only [Option.some.injEq, Prod.mk.injEq] at hrec2
          rw [hrec2.1, hrec2.2] at hadj
          rw [adjustSpines_split] at hadj
          simp only [Prod.mk.injEq, true_and] at hadj
          have hm2 := sp3_mid mid (idx + 1) d1 s1 tr1 b post hmid hb hok2
          rw [show (0 : Nat) + mid.length + 1 = mid.length + 1 from by omega]
          refine ⟨?_, ?_⟩
          · rw [hm2.1, ← hadj.1]
            rfl
          · show (some (sinfo, datatype) :: (spLoop (idx + 1)
              (mid ++ b :: post) true d1 s1 tr1).recs)[mid.length + 1]? = _
            rw [List.getElem?_cons_succ, hm2.2, ← hadj.1, ← hadj.2.1]
  | cons p pre' ih =>
    intro idx init datatype sinfo tr s d mid b post hmid hb hok hrec
    simp only [List.cons_append, List.length_cons] at hok hrec ⊢
    rw [show pre'.length + 1 + mid.length + 1 =
      (pre'.length + mid.length + 1) + 1 from by omega]
    simp only [spLoop] at hok hrec ⊢
    split at hok
    case isTrue hsp =>
      simp only [if_pos hsp] at hrec ⊢
      rw [List.getElem?_cons_succ] at hrec ⊢
      exact ih _ _ _ _ _ _ _ _ _ _ hmid hb hok hrec
    case isFalse hsp =>
      rw [if_neg hsp] at hrec ⊢
      split at hok
      case isTrue hinit =>
        rw [if_pos hinit] at hrec ⊢
        split at hok
        case isTrue hex =>
          rw [if_pos hex] at hrec ⊢
          rw [List.getElem?_cons_succ] at hrec ⊢
          exact ih _ _ _ _ _ _ _ _ _ _ hmid hb hok hrec
        case isFalse hex =>
          rw [if_neg hex] at hrec
          exact Option.noConfusion hok
      case isFalse hinit =>
        rw [if_neg hinit] at hrec ⊢
        split at hok
        case isTrue hwd =>
          rw [if_pos hwd] at hrec
          exact Option.noConfusion hok
        case isFalse hwd =>
          rw [if_neg hwd] at hrec ⊢
          split at hok
          case isTrue hnm =>
            rw [if_pos hnm] at hrec ⊢
            rw [List.getElem?_cons_succ] at hrec ⊢
            exact ih _ _ _ _ _ _ _ _ _ _ hmid hb hok hrec
          case isFalse hnm =>
            rw [if_neg hnm] at hrec ⊢
            rcases hadj : adjustSpines idx p (tokenize p) datatype sinfo tr
              with ⟨o, d1, s1, tr1⟩
            rw [hadj] at hok hrec
            cases o with
            | some e => exact Option.noConfusion hok
            | none =>
              have hok2 : (spLoop (idx + 1) (pre' ++ "*^" ::
                  (mid ++ b :: post)) init d1 s1 tr1).err = none := hok
              have hrec2 : (some (sinfo, datatype) :: (spLoop (idx + 1)
                  (pre' ++ "*^" :: (mid ++ b :: post)) init d1 s1
                  tr1).recs)[pre'.length + 1]? = some (some ([s], [d])) := hrec
              rw [List.getElem?_cons_succ] at hrec2
              refine ⟨(ih _ _ _ _ _ _ _ _ _ _ hmid hb hok2 hrec2).1, ?_⟩
              show (some (sinfo, datatype) :: (spLoop (idx + 1)
                (pre' ++ "*^" :: (mid ++ b :: post)) init d1 s1
                tr1).recs)[(pre'.length + mid.length + 1) + 1]? = _
              rw [List.getElem?_cons_succ]
              exact (ih _ _ _ _ _ _ _ _ _ _ hmid hb hok2 hrec2).2

/-- Indexing distributes over list append. -/
theorem withIdx_append (xs : List α) :
    ∀ (n : Nat) (ys : List α),
      withIdx n (xs ++ ys) = withIdx n xs ++ withIdx (n + xs.length) ys := by
  induction xs with
  | nil => intro n ys; simp [withIdx]
  | cons x xs' ih =>
    intro n ys
    show (n, x) :: withIdx (n + 1) (xs' ++ ys) =
      (n, x) :: (withIdx (n + 1) xs' ++ withIdx (n + (xs'.length + 1)) ys)
    rw [ih (n + 1) ys,
      show n + 1 + xs'.length = n + (xs'.length + 1) from by omega]

/-- Members of an indexed list are members of the list. -/
theorem withIdx_mem (l : List α) :
    ∀ (n k : Nat) (x : α), (k, x) ∈ withIdx n l → x ∈ l := by
  induction l with
  | nil => intro n k x h; cases h
  | cons a l' ih =>
    intro n k x h
    simp only [withIdx, List.mem_cons, Prod.mk.injEq] at h
    rcases h with ⟨_, hx⟩ | hx
    · simp [hx]
    · simp [ih _ _ _ hx]

/-- Unfolding `linksLoop` at a line without spine structure. -/
theorem linksLoop_cons_global (k : Nat) (l : String)
    (rest : List (Nat × String)) (prev : Option (Nat × String))
    (h : hasSpines l = false) :
    linksLoop ((k, l) :: rest) prev = linksLoop rest prev := by
  simp only [linksLoop, h, eq_self_iff_true, if_true]

/-- Unfolding `linksLoop` at the first structural line. -/
theorem linksLoop_cons_none (k : Nat) (l : String)
    (rest : List (Nat × String)) (h : hasSpines l = true) :
    linksLoop ((k, l) :: rest) none = linksLoop rest (some (k, l)) := by
  simp only [linksLoop, h, Bool.true_eq_false, if_false]

/-- Unfolding `linksLoop` at a structural line following a structural line. -/
theorem linksLoop_cons_some (k : Nat) (l : String)
    (rest : List (Nat × String)) (p : Nat) (pl : String)
    (h : hasSpines l = true) :
    linksLoop ((k, l) :: rest) (some (p, pl)) =
      (match stitchLinesTogether p k pl l (tokenize pl) (tokenize l) with
       | .error e => (some e, [])
       | .ok links =>
         ((linksLoop rest (some (k, l))).1,
          ((p, k), links) :: (linksLoop rest (some (k, l))).2)) := by
  simp only [linksLoop, h, Bool.true_eq_false, if_false]

/-- After the previous structural line is fixed, skipping global lines and
reaching the next structural line records exactly one stitch between the
two, computed by `stitchLinesTogether`. -/
theorem lk_mid (mids : List (Nat × String)) :
    ∀ (ka : Nat) (araw : String) (kb : Nat) (braw : String)
      (posts : List (Nat × String)),
      (∀ q ∈ mids, hasSpines q.2 = false) → hasSpines braw = true →
      (linksLoop (mids ++ (kb, braw) :: posts) (some (ka, araw))).1 = none →
      ∃ links, ((ka, kb), links) ∈
          (linksLoop (mids ++ (kb, braw) :: posts) (some (ka, araw))).2 ∧
        stitchLinesTogether ka kb araw braw (tokenize araw) (tokenize braw) =
          .ok links := by
  induction mids with
  | nil =>
    intro ka araw kb braw posts _ hb hok
    rw [List.nil_append, linksLoop_cons_some _ _ _ _ _ hb] at hok ⊢
    cases hst : stitchLinesTogether ka kb araw braw (tokenize araw)
        (tokenize braw) with
    | error e =>
      rw [hst] at hok
      exact Option.noConfusion hok
    | ok links =>
      rw [hst] at hok
      refine ⟨links, ?_, rfl⟩
      show ((ka, kb), links) ∈ ((ka, kb), links) ::
        (linksLoop posts (some (kb, braw))).2
      exact List.mem_cons_self _ _
  | cons q mids' ih =>
    intro ka araw kb braw posts hmid hb hok
    have hq : hasSpines q.2 = false := hmid q (by simp)
    rw [show q = (q.1, q.2) from rfl, List.cons_append,
      linksLoop_cons_global _ _ _ _ hq] at hok ⊢
    exact ih _ _ _ _ _ (fun x hx => hmid x (by simp [hx])) hb hok

/-- In a successful link scan over a file containing a structural line at
position `ka` followed (across global lines only) by a structural line at
position `kb`, the scan records the stitch `(ka, kb)` computed by
`stitchLinesTogether`. -/
theorem lk_main (pres : List (Nat × String)) :
    ∀ (prev : Option (Nat × String)) (ka : Nat) (araw : String)
      (mids : List (Nat × String)) (kb : Nat) (braw : String)
      (posts : List (Nat × String)),
      hasSpines araw = true → (∀ q ∈ mids, hasSpines q.2 = false) →
      hasSpines braw = true →
      (linksLoop (pres ++ (ka, araw) :: (mids ++ (kb, braw) :: posts))
        prev).1 = none →
      ∃ links, ((ka, kb), links) ∈
          (linksLoop (pres ++ (ka, araw) :: (mids ++ (kb, braw) :: posts))
            prev).2 ∧
        stitchLinesTogether ka kb araw braw (tokenize araw) (tokenize braw) =
          .ok links := by
  induction pres with
  | nil =>
    intro prev ka araw mids kb braw posts ha hmid hb hok
    rw [List.nil_append] at hok ⊢
    cases prev with
    | none =>
      rw [linksLoop_cons_none _ _ _ ha] at hok ⊢
      exact lk_mid _ _ _ _ _ _ hmid hb hok
    | some pv =>
      rw [show pv = (pv.1, pv.2) from rfl, linksLoop_cons_some _ _ _ _ _ ha]
        at hok ⊢
      cases hst : stitchLinesTogether pv.1 ka pv.2 araw (tokenize pv.2)
          (tokenize araw) with
      | error e =>
        rw [hst] at hok
        exact Option.noConfusion hok
      | ok links0 =>
        rw [hst] at hok
        have hok2 : (linksLoop (mids ++ (kb, braw) :: posts)
            (some (ka, araw))).1 = none := hok
        obtain ⟨links, hmem, hstb⟩ := lk_mid _ _ _ _ _ _ hmid hb hok2
        refine ⟨links, ?_, hstb⟩
        show ((ka, kb), links) ∈ ((pv.1, ka), links0) ::
          (linksLoop (mids ++ (kb, braw) :: posts) (some (ka, araw))).2
        exact List.mem_cons_of_mem _ hmem
  | cons q pres' ih =>
    intro prev ka araw mids kb braw posts ha hmid hb hok
    rw [show q = (q.1, q.2) from rfl, List.cons_append] at hok ⊢
    by_cases hq : hasSpines q.2 = false
    · rw [linksLoop_cons_global _ _ _ _ hq] at hok ⊢
      exact ih _ _ _ _ _ _ _ ha hmid hb hok
    · have hq2 : hasSpines q.2 = true := by
        cases hx : hasSpines q.2
        · exact absurd hx hq
        · rfl
      cases prev with
      | none =>
        rw [linksLoop_cons_none _ _ _ hq2] at hok ⊢
        exact ih _ _ _ _ _ _ _ ha hmid hb hok
      | some pv =>
        rw [show pv = (pv.1, pv.2) from rfl,
          linksLoop_cons_some _ _ _ _ _ hq2] at hok ⊢
        cases hst : stitchLinesTogether pv.1 q.1 pv.2 q.2 (tokenize pv.2)
            (tokenize q.2) with
        | error e =>
          rw [hst] at hok
          exact Option.noConfusion hok
        | ok links0 =>
          rw [hst] at hok
          have hok2 : (linksLoop (pres' ++ (ka, araw) ::
              (mids ++ (kb, braw) :: posts)) (some (q.1, q.2))).1 = none := hok
          obtain ⟨links, hmem, hstb⟩ := ih _ _ _ _ _ _ _ ha hmid hb hok2
          refine ⟨links, ?_, hstb⟩
          show ((ka, kb), links) ∈ ((pv.1, q.1), links0) ::
            (linksLoop (pres' ++ (ka, araw) :: (mids ++ (kb, braw) :: posts))
              (some (q.1, q.2))).2
          exact List.mem_cons_of_mem _ hmem

/-- Strictly increasing sequences: `range'` lists are pairwise `<`. -/
theorem pairwise_lt_range1 (n : Nat) : ∀ s : Nat,
    List.Pairwise (fun a b => a < b) (List.range' s n) := by
  induction n with
  | zero => intro s; simp
  | succ m ih =>
    intro s
    rw [List.range'_succ]
    refine List.Pairwise.cons ?_ (ih (s + 1))
    intro b hb
    rw [List.mem_range'_1] at hb
    omega

/-! Claim theorems. -/

/-- Claim C1.  For every successfully parsed file the track numbers assigned
over the file (recorded in discovery order in the ghost field `assignOrder`:
one entry per exclusive-interpretation token of the opening line, one entry
per add manipulator) are exactly `1, 2, …, maxTrack`: a strictly increasing
sequence starting at 1 for the leftmost initial exclusive token, in which
every allocation is the next unused integer, so no number — in particular no
terminated track's number — is ever reassigned within one file. -/
theorem c1_track_monotonicity (raw : List String)
    (_hv : isValid (read raw) = true) :
    (read raw).tr.assignOrder =
      List.range' 1 ((read raw).tr.trackstarts.length - 1) ∧
    List.Pairwise (fun a b => a < b) (read raw).tr.assignOrder := by
  have hinv := spLoop_inv raw 0 false [] [] trackSt0 trackInv_trackSt0
    (fun _ => rfl)
  rw [read_tr raw]
  obtain ⟨ha, _, _⟩ := hinv
  exact ⟨ha, by rw [ha]; exact pairwise_lt_range1 _ 1⟩

/-- Witness for claim C1: a file that opens two tracks, one at file start and
one through an add manipulator; the recorded assignment order is `[1, 2]`. -/
theorem c1_track_monotonicity_witness :
    isValid (read ["**a", "*+", "*\t**b", "4c\t4d", "*-\t*-"]) = true ∧
    (read ["**a", "*+", "*\t**b", "4c\t4d", "*-\t*-"]).tr.assignOrder =
      List.range' 1
        ((read ["**a", "*+", "*\t**b", "4c\t4d", "*-\t*-"]).tr.trackstarts.length
          - 1) :=
  ⟨by decide, (c1_track_monotonicity _ (by decide)).1⟩

/-- Claim C2, code bug.  In the file `**kern\t**cello` / `*-\t*` / `4c` / `*-`
the terminate token at line 1 field 0 belongs to track 1 (its assigned track
number is 1), yet `adjustSpines` records every terminate token in
`trackends[trackstarts.size()-1]`, i.e. against the current maximal track:
the parse is valid, track 1's end list is empty, and track 2's end list
holds track 1's terminator. -/
theorem c2_trackend_misassigned_bug :
    isValid (read ["**kern\t**cello", "*-\t*", "4c", "*-"]) = true ∧
    getTrackEndCount (read ["**kern\t**cello", "*-\t*", "4c", "*-"]) 1 = 0 ∧
    getTrackEnd (read ["**kern\t**cello", "*-\t*", "4c", "*-"]) 2 0 = some (1, 0) ∧
    tokTextAt (read ["**kern\t**cello", "*-\t*", "4c", "*-"]) (1, 0) = "*-" ∧
    tokenTrack (read ["**kern\t**cello", "*-\t*", "4c", "*-"]) (1, 0) = 1 := by
  decide

/-- Claim C4, counterexample.  Columns with spine-path labels `1` and `2` are
not the a/b halves of one split, so the claim requires the merged label
`1 2`; the code's equal-length prefix test nevertheless fires (both length-1
labels share the empty length-0 prefix) and produces the empty label. -/
theorem c4_merge_label_counterexample :
    isValid (read ["**a\t**b", "*v\t*v", "4c", "*-"]) = true ∧
    (read ["**a\t**b", "*v\t*v", "4c", "*-"]).recs.getD 2 none =
      some ([""], ["**a"]) ∧
    getMergedSpineInfo ["1", "2"] 0 1 = "" ∧
    ("" : String) ≠ "1 2" := by
  decide

/-- Claim C3.  In a successfully parsed file, a structural line consisting of
the single split token `*^` in a single-column state (its recorded spine-info
and datatype labels are `[s]` and `[d]`) is followed by a next structural
line of exactly 2 columns, whose recorded labels are `(s)a` / `(s)b` with
both columns inheriting datatype `d`; stitching links the split token
(field 0) forward to exactly the two consecutive tokens 0 and 1 of that next
structural line. -/
theorem c3_split_arity (pre mid post : List String) (b s d : String)
    (hv : isValid (read (pre ++ "*^" :: (mid ++ b :: post))) = true)
    (hmid : ∀ m ∈ mid, hasSpines m = false)
    (hb : hasSpines b = true)
    (hrec : (read (pre ++ "*^" :: (mid ++ b :: post))).recs[pre.length]? =
      some (some ([s], [d]))) :
    (tokenize b).length = 2 ∧
    (read (pre ++ "*^" :: (mid ++ b :: post))).recs[pre.length + mid.length
      + 1]? = some (some (["(" ++ s ++ ")a", "(" ++ s ++ ")b"], [d, d])) ∧
    ((pre.length, pre.length + mid.length + 1), [(0, 0), (0, 1)]) ∈
      (read (pre ++ "*^" :: (mid ++ b :: post))).stitches := by
  obtain ⟨hsp, hlk, hrecs, hstitches⟩ := read_when_valid _ hv
  rw [hrecs] at hrec
  obtain ⟨hlen2, hrecb⟩ :=
    sp3_main pre 0 false [] [] trackSt0 s d mid b post hmid hb hsp hrec
  refine ⟨hlen2, by rw [hrecs]; exact hrecb, ?_⟩
  rw [hstitches]
  have hwidx : withIdx 0 (pre ++ "*^" :: (mid ++ b :: post)) =
      withIdx 0 pre ++ (pre.length, "*^") ::
        (withIdx (pre.length + 1) mid ++
          (pre.length + 1 + mid.length, b) ::
            withIdx (pre.length + 1 + mid.length + 1) post) := by
    rw [withIdx_append, Nat.zero_add,
      show withIdx pre.length ("*^" :: (mid ++ b :: post)) =
        (pre.length, "*^") :: withIdx (pre.length + 1) (mid ++ b :: post)
        from rfl,
      withIdx_append,
      show withIdx (pre.length + 1 + mid.length) (b :: post) =
        (pre.length + 1 + mid.length, b) ::
          withIdx (pre.length + 1 + mid.length + 1) post from rfl]
  have hmid2 : ∀ q ∈ withIdx (pre.length + 1) mid, hasSpines q.2 = false := by
    intro q hq
    rw [show q = (q.1, q.2) from rfl] at hq
    exact hmid q.2 (withIdx_mem mid _ _ _ hq)
  obtain ⟨links, hmem, hstitch⟩ := lk_main (withIdx 0 pre) none pre.length
    "*^" (withIdx (pre.length + 1) mid) (pre.length + 1 + mid.length) b
    (withIdx (pre.length + 1 + mid.length + 1) post) rfl hmid2 hb
    (by rw [← hwidx]; exact hlk)
  obtain ⟨t0, t1, htoks⟩ : ∃ x y, tokenize b = [x, y] := by
    cases htk : tokenize b with
    | nil => rw [htk] at hlen2; simp at hlen2
    | cons x r1 =>
      cases r1 with
      | nil => rw [htk] at hlen2; simp at hlen2
      | cons y r2 =>
        cases r2 with
        | nil => exact ⟨x, y, rfl⟩
        | cons z r3 => rw [htk] at hlen2; simp at hlen2
  rw [show tokenize "*^" = ["*^"] from rfl, htoks] at hstitch
  rw [show stitchLinesTogether pre.length (pre.length + 1 + mid.length) "*^" b
      ["*^"] [t0, t1] = .ok [(0, 0), (0, 1)] from rfl] at hstitch
  have hlinks : [(0, 0), (0, 1)] = links := by
    injection hstitch
  rw [show pre.length + mid.length + 1 = pre.length + 1 + mid.length from by
    omega]
  rw [hlinks, hwidx]
  exact hmem

/-- Witness for claim C3: the file `**kern` / `*^` / `4c\t4d` / `*-\t*-`
parses valid; the line after the split has two columns and the split token
links forward to both its tokens. -/
theorem c3_split_arity_witness :
    isValid (read (["**kern"] ++ "*^" :: ([] ++ "4c\t4d" :: ["*-\t*-"]))) =
      true ∧
    (tokenize "4c\t4d").length = 2 ∧
    ((1, 2), [(0, 0), (0, 1)]) ∈
      (read (["**kern"] ++ "*^" :: ([] ++ "4c\t4d" :: ["*-\t*-"]))).stitches := by
  refine ⟨by decide, ?_, ?_⟩
  · exact (c3_split_arity ["**kern"] [] ["*-\t*-"] "4c\t4d" "1" "**kern"
      (by decide) (by simp) (by decide) (by decide)).1
  · exact (c3_split_arity ["**kern"] [] ["*-\t*-"] "4c\t4d" "1" "**kern"
      (by decide) (by simp) (by decide) (by decide)).2.2

/-- Claim C4, amended.  What `getMergedSpineInfo` actually computes: (1) for
two merging columns whose labels are the a/b halves of one prior split, the
merged label is the parent label (first label stripped of its first and last
two characters; the underlying test only compares lengths and all-but-last
characters, which is why the counterexample's unrelated labels also
collapse); (2) for two merging columns whose labels differ in length, the
merged label is their space-separated concatenation; (3) for a run of three
or more merging columns the result is the first column's label followed by
K−1 copies of the label of the column one position past the run — not the
concatenation of the merging labels. -/
theorem c4_merge_label_amended :
    (∀ cs : List Char,
      getMergedSpineInfo [String.mk ('(' :: cs ++ [')', 'a']),
        String.mk ('(' :: cs ++ [')', 'b'])] 0 1 = String.mk cs) ∧
    (∀ s t : String, s.length ≠ t.length →
      getMergedSpineInfo [s, t] 0 1 = s ++ " " ++ t) ∧
    (∀ a b c d : String,
      getMergedSpineInfo [a, b, c, d] 0 2 = (a ++ " " ++ d) ++ " " ++ d) := by
  refine ⟨?_, ?_, ?_⟩
  · intro cs
    have hd : ('(' : Char) :: cs ++ [')', 'a'] = ('(' :: cs ++ [')']) ++ ['a'] := by
      simp
    have hd2 : ('(' : Char) :: cs ++ [')', 'b'] = ('(' :: cs ++ [')']) ++ ['b'] := by
      simp
    have hlen : (('(' : Char) :: cs ++ [')']).length = cs.length + 2 := by
      simp
    have hlen1 : (String.mk ('(' :: cs ++ [')', 'a'])).length = cs.length + 3 := by
      show (('(' : Char) :: cs ++ [')', 'a']).length = cs.length + 3
      simp
    have hlen2 : (String.mk ('(' :: cs ++ [')', 'b'])).length = cs.length + 3 := by
      show (('(' : Char) :: cs ++ [')', 'b']).length = cs.length + 3
      simp
    have hx : ∀ (l : List Char) (c : Char), l.length = cs.length + 2 →
        substrCpp (String.mk (l ++ [c])) 0 (((cs.length + 3 : Nat) : Int) - 1) =
          String.mk l := by
      intro l c hl
      unfold substrCpp
      have hn : ¬ ((((cs.length + 3 : Nat) : Int)) - 1 < 0) := by omega
      rw [if_neg hn]
      congr 1
      show ((l ++ [c]).drop 0).take (((cs.length + 3 : Nat) : Int) - 1).toNat = l
      have ht : (((cs.length + 3 : Nat) : Int) - 1).toNat = cs.length + 2 := by omega
      rw [ht, List.drop_zero, List.take_append_eq_append_take, ← hl]
      simp
    unfold getMergedSpineInfo
    simp only [List.getD_cons_zero, List.getD_cons_succ, hlen1, hlen2]
    rw [hd, hd2, hx _ 'a' hlen, hx _ 'b' hlen]
    simp only [beq_self_eq_true, Nat.beq_refl, Bool.and_self, if_true]
    unfold substrCpp
    have hn : ¬ ((((cs.length + 3 : Nat) : Int)) - 3 < 0) := by omega
    rw [if_neg hn]
    congr 1
    have ht : (((cs.length + 3 : Nat) : Int) - 3).toNat = cs.length := by omega
    rw [ht]
    show ((('(' :: cs ++ [')']) ++ ['a']).drop 1).take cs.length = cs
    have hstep : ((('(' : Char) :: cs ++ [')']) ++ ['a']).drop 1 =
        cs ++ ([')'] ++ ['a']) := by
      simp
    rw [hstep, List.take_append_eq_append_take]
    simp
  · intro s t h
    unfold getMergedSpineInfo
    simp only [List.getD_cons_zero, List.getD_cons_succ]
    have hb : (s.length == t.length) = false := by
      simp [h]
    rw [hb]
    simp
  · intro a b c d
    rfl

/-- Witness for the amended claim C4: two labels of different lengths are
concatenated. -/
theorem c4_merge_label_amended_witness :
    ("1" : String).length ≠ ("22" : String).length ∧
    getMergedSpineInfo ["1", "22"] 0 1 = "1" ++ " " ++ "22" :=
  ⟨by decide, c4_merge_label_amended.2.1 "1" "22" (by decide)⟩

/-- Claim C5.  Stitching next line `[a, b]` after the manipulator line
`*x\t*x` creates the links in swapped order: previous token 1 links forward
to next token 0 and previous token 0 to next token 1, so next token 0 is
backward-linked to previous token 1 and next token 1 to previous token 0. -/
theorem c5_exchange_symmetry (a b : String) (p n : Nat) :
    stitchLinesTogether p n "*x\t*x" (a ++ "\t" ++ b) ["*x", "*x"] [a, b] =
      .ok [(1, 0), (0, 1)] := rfl

/-- Claim C6, code bug.  Line 1 of the file `**kern\t**kern` / `*x\t*` is
`["*x", "*"]`: its exchange token is not adjacent to a second `*x`, yet the
parse is reported valid, because the unmatched-exchange guard in
`adjustSpines` re-tests token `i` instead of token `i+1` (its ERROR1 branch
is unreachable) and no later structural line exists for the stitch alignment
check to fail on. -/
theorem c6_unmatched_exchange_not_fatal_bug :
    tokenize "*x\t*" = ["*x", "*"] ∧
    isValid (read ["**kern\t**kern", "*x\t*"]) = true := by
  decide

/-- Claim C7, counterexample.  Lines 5 (`4d`, one field) and 6 (`4e\t4f`, two
fields) of the file are adjacent structural non-manipulator lines with
differing field counts; the parse is invalid as claimed, but the stored
message is produced by the width check of `analyzeSpines`, which runs before
stitching: it names only the second line's number (6) and the two field
counts, not the first line's number (5) nor either line's text. -/
theorem c7_error_message_counterexample :
    isValid (read ["**kern", "4a", "4b", "4c", "4d", "4e\t4f"]) = false ∧
    getParseError (read ["**kern", "4a", "4b", "4c", "4d", "4e\t4f"]) =
      "Error on line 6:\n   Expected 1 fields, but found 2\n" ∧
    containsSub
      (getParseError (read ["**kern", "4a", "4b", "4c", "4d", "4e\t4f"])) "6"
      = true ∧
    containsSub
      (getParseError (read ["**kern", "4a", "4b", "4c", "4d", "4e\t4f"])) "5"
      = false ∧
    containsSub
      (getParseError (read ["**kern", "4a", "4b", "4c", "4d", "4e\t4f"])) "4d"
      = false ∧
    containsSub
      (getParseError (read ["**kern", "4a", "4b", "4c", "4d", "4e\t4f"]))
      "4e\t4f" = false := by
  decide

/-- Claim C7, amended.  A file with two adjacent structural lines — the
first free of manipulators — whose field counts differ is always reported
invalid.  The stored message, however, is produced by the spine-scan width
check, which runs before stitching: it names the second line's (1-based)
number and the expected and found field counts, but not the first line's
number and not the lines' text (see the counterexample theorem). -/
theorem c7_alignment_failure_amended (pre mid post : List String)
    (a b : String) (ha : hasSpines a = true) (hb : hasSpines b = true)
    (hmid : ∀ m ∈ mid, hasSpines m = false)
    (hman : lineIsManipulator (tokenize a) = false)
    (hlen : (tokenize a).length ≠ (tokenize b).length) :
    isValid (read (pre ++ a :: (mid ++ b :: post))) = false := by
  have h := sp7_main pre 0 false [] [] trackSt0 a mid b post ha hb hmid hman hlen
  cases he : (spLoop 0 (pre ++ a :: (mid ++ b :: post)) false [] [] trackSt0).err
    with
  | none => exact absurd he h
  | some e =>
    exact read_invalid_of_spLoop_err _ e he (spLoop_err _ _ _ _ _ _ _ he)

/-- Witness for the amended claim C7: lines `4d` and `4e\t4f` are adjacent
structural non-manipulator lines of widths 1 and 2, and the file is
invalid. -/
theorem c7_alignment_failure_amended_witness :
    isValid (read (["**kern", "4a", "4b", "4c"] ++ "4d" ::
      ([] ++ "4e\t4f" :: []))) = false :=
  c7_alignment_failure_amended ["**kern", "4a", "4b", "4c"] [] [] "4d" "4e\t4f"
    (by decide) (by decide) (by simp) (by decide) (by decide)

/-- Claim C8, code bug.  In a 3-line file, line access with index `-2` should
return the line at position `3 - 2 = 1`, and the two-argument token accessor
does resolve `-2` to line 1; but `operator[]` computes `size() - index = 5`,
detects it as out of range and clamps to the last line, position 2. -/
theorem c8_negative_index_bug :
    fileIdxOp (read ["**kern", "4c", "*-"]) (-2) = 2 ∧
    tokenAccessLine (read ["**kern", "4c", "*-"]) (-2) = 1 ∧
    (2 : Nat) ≠ 1 := by
  decide

/-- Claim C9.  The pipeline runs tokenize, line indexing, spine analysis,
link analysis and track analysis in this fixed order; the first two stages
never record an error, and the parse result is the state after the first
stage that leaves the parse invalid — later stages are never applied to an
invalid state.  Validity is exactly emptiness of the stored, retrievable
error message. -/
theorem c9_pipeline_order_and_validity (raw : List String) :
    (read raw =
      (let h3 := analyzeSpines (analyzeLines (analyzeTokens (initFile raw)))
       if isValid h3 = false then h3 else
       let h4 := analyzeLinks h3
       if isValid h4 = false then h4 else analyzeTracks h4)) ∧
    (∀ h : HFile, isValid h = true ↔ getParseError h = "") := by
  constructor
  · have h1 : isValid (analyzeTokens (initFile raw)) = true := rfl
    have h2 : isValid (analyzeLines (analyzeTokens (initFile raw))) = true := rfl
    simp only [read, h1, h2]
    simp
  · intro h
    simp [isValid, getParseError]

/-- Claim C10.  The per-track read accessors are total over all integer
arguments: a track number that is non-positive or exceeds the maximal track
makes `getTrackStart` return NULL; after offsetting negative arguments from
the end, out-of-range track or subtrack arguments make `getTrackEndCount`
return 0 and `getTrackEnd` return NULL; and `getPrimaryTrackSeq` of a track
with no start token is the empty sequence. -/
theorem c10_accessor_totality (h : HFile) (track subtrack : Int)
    (options : Nat) :
    ((track ≤ 0 ∨ getMaxTrack h < track) → getTrackStart h track = none) ∧
    ((∀ t : Int, t = (if track < 0 then track + (h.tr.trackends.length : Int)
        else track) →
      t < 0 ∨ (h.tr.trackends.length : Int) ≤ t →
      getTrackEndCount h track = 0)) ∧
    ((∀ t s : Int,
      t = (if track < 0 then track + (h.tr.trackends.length : Int)
        else track) →
      s = (if subtrack < 0 then
        subtrack + ((h.tr.trackends.getD t.toNat []).length : Int)
        else subtrack) →
      t < 0 ∨ (h.tr.trackends.length : Int) ≤ t ∨ s < 0 ∨
        ((h.tr.trackends.getD t.toNat []).length : Int) ≤ s →
      getTrackEnd h track subtrack = none)) ∧
    (getTrackStart h track = none → getPrimaryTrackSeq h track options = []) := by
  refine ⟨?_, ?_, ?_, ?_⟩
  · intro hc
    simp only [getTrackStart]
    split
    case isTrue hcond =>
      exfalso
      simp only [Bool.and_eq_true, decide_eq_true_eq] at hcond
      simp only [getMaxTrack] at hc
      omega
    case isFalse => rfl
  · intro t ht hc
    simp only [getTrackEndCount]
    rw [← ht]
    rcases hc with hc | hc
    · rw [if_pos hc]
    · rw [if_neg (by omega), if_pos hc]
  · intro t s ht hs hc
    simp only [getTrackEnd]
    rw [← ht]
    by_cases h1 : t < 0
    · rw [if_pos h1]
    · rw [if_neg h1]
      by_cases h2 : (h.tr.trackends.length : Int) ≤ t
      · rw [if_pos h2]
      · rw [if_neg h2, ← hs]
        rcases hc with hc | hc | hc | hc
        · exact absurd hc h1
        · exact absurd hc h2
        · rw [if_pos hc]
        · rw [if_neg (by omega), if_pos hc]
  · intro hc
    simp only [getPrimaryTrackSeq, hc]

/-- Witness for claim C10 at a parsed three-line file and the out-of-range
arguments `track = -9`, `subtrack = 5`. -/
theorem c10_accessor_totality_witness :
    getTrackStart (read ["**kern", "4c", "*-"]) (-9) = none ∧
    getTrackEndCount (read ["**kern", "4c", "*-"]) (-9) = 0 ∧
    getTrackEnd (read ["**kern", "4c", "*-"]) (-9) 5 = none ∧
    getPrimaryTrackSeq (read ["**kern", "4c", "*-"]) (-9) 7 = [] := by
  refine ⟨?_, ?_, ?_, ?_⟩
  · exact (c10_accessor_totality (read ["**kern", "4c", "*-"]) (-9) 5 7).1
      (by decide)
  · exact (c10_accessor_totality (read ["**kern", "4c", "*-"]) (-9) 5 7).2.1
      (-7) (by decide) (by decide)
  · exact (c10_accessor_totality (read ["**kern", "4c", "*-"]) (-9) 5 7).2.2.1
      (-7) 5 (by decide) (by decide) (by decide)
  · exact (c10_accessor_totality (read ["**kern", "4c", "*-"]) (-9) 5 7).2.2.2
      ((c10_accessor_totality (read ["**kern", "4c", "*-"]) (-9) 5 7).1
        (by decide))

end MinHumdrum
